import Mathlib

set_option maxHeartbeats 1000000

/- Shallow embedding of the query engine of the annotation-software repository
   (src/methods.py: search_bar_examples, search_bar_previous_annotations) and of
   the annotation-store write path of src/app.py (data_get).  Strings are
   embedded as lists of characters; Python dictionaries that are iterated in
   insertion order are embedded as association lists; fallible accesses
   (KeyError, IndexError, NameError, ValueError, AttributeError) are embedded
   with Except. -/

abbrev LC := List Char

/-- Python substring prefix test helper: `listPrefixOf q s` is true when `q`
is a prefix of `s`. -/
def listPrefixOf : LC → LC → Bool
  | [], _ => true
  | _ :: _, [] => false
  | a :: as, b :: bs => decide (a = b) && listPrefixOf as bs

/-- Python `q in s` on strings: contiguous substring containment
(the empty string is contained in every string). -/
def pyIn (q : LC) : LC → Bool
  | [] => decide (q = [])
  | c :: rest => listPrefixOf q (c :: rest) || pyIn q rest

/-- Python `s.split(sep)` for a one-character separator: always returns at
least one (possibly empty) part. -/
def splitOnChar (sep : Char) : List Char → List (List Char)
  | [] => [[]]
  | c :: cs =>
    match splitOnChar sep cs with
    | [] => [[]]
    | r :: rs => if c = sep then [] :: r :: rs else (c :: r) :: rs

/-- Python `s.lower()` (ASCII case mapping; the filter enum values that the
source lowercases are all ASCII). -/
def pyLower (s : LC) : LC := s.map Char.toLower

/-- Python `s.isupper()`: at least one cased character and no lowercase
character (ASCII case predicates; the POS tags of the source are ASCII). -/
def pyIsUpper (s : LC) : Bool :=
  s.any (fun c => c.isUpper || c.isLower) && s.all (fun c => !c.isLower)

/-- The `string.punctuation` constant of the Python standard library. -/
def punc : LC := "!\"#$%&\x27()*+,-./:;<=>?@[\\]^_\x60\x7b|\x7d~".toList

/-- The `ARABIC_LETTERS` constant of src/methods.py. -/
def ARABIC_LETTERS : LC := "ءؤئابتثجحخدذرزسشصضطظعغفقكلمنهوىي".toList

/-- Python `s.split()` helper: accumulates the current run of
non-whitespace characters. -/
def splitWsAux (cur : List Char) : List Char → List (List Char)
  | [] => if cur = [] then [] else [cur.reverse]
  | c :: cs =>
    if c.isWhitespace then
      if cur = [] then splitWsAux [] cs
      else cur.reverse :: splitWsAux [] cs
    else splitWsAux (c :: cur) cs

/-- Python `s.split()` (split on whitespace runs, dropping empty parts). -/
def pySplitWs (s : LC) : List LC := splitWsAux [] s

/-- Python `'_'.join(parts)`. -/
def pyJoinUnder (ps : List LC) : LC := List.intercalate ['_'] ps

/-- Python dictionary read `d[k]` over an insertion-ordered association
list: the first entry with the key, if any. -/
def pyDictGet {β : Type} (d : List (LC × β)) (k : LC) : Option β :=
  (d.find? (fun kv => decide (kv.1 = k))).map (fun kv => kv.2)

/-- The uncaught Python exceptions the embedded code paths can raise. -/
inductive PyErr where
  | keyError
  | indexError
  | nameError
  | valueError
  | attributeError
  | typeError
deriving DecidableEq, Repr

instance {ε α : Type} [DecidableEq ε] [DecidableEq α] : DecidableEq (Except ε α) :=
  fun a b =>
  match a, b with
  | .error e1, .error e2 =>
    if h : e1 = e2 then isTrue (by rw [h])
    else isFalse (by intro hc; cases hc; exact h rfl)
  | .error _, .ok _ => isFalse (by intro hc; cases hc)
  | .ok _, .error _ => isFalse (by intro hc; cases hc)
  | .ok a1, .ok a2 =>
    if h : a1 = a2 then isTrue (by rw [h])
    else isFalse (by intro hc; cases hc; exact h rfl)

/- Data model of §3 / src/methods.py type aliases.  A Gulf example is a
mapping with fields baseword, gloss, clitic, context; an MSA example has
segment, gloss, context; a CODA example has raw, coda, context. -/

structure ExampleG where
  baseword : LC
  gloss : LC
  clitic : LC
  context : LC
deriving DecidableEq, Repr

structure ExampleM where
  segment : LC
  gloss : LC
  context : LC
deriving DecidableEq, Repr

structure ExampleC where
  raw : LC
  coda : LC
  context : LC
deriving DecidableEq, Repr

/-- The `ExamplesQueryFilter` namedtuple of src/methods.py. -/
structure ExamplesQueryFilter where
  segment_type : LC
  match_type : LC
  resource : LC
deriving DecidableEq, Repr

abbrev GulfTagMap := List (LC × List ExampleG)
abbrev MsaTagMap := List (LC × List ExampleM)
abbrev GulfStore := List (LC × GulfTagMap)

/-- The return value of search_bar_examples: a POS-keyed mapping for the two
tag resources, or a flat list for CODA (the Python union return type). -/
inductive Resp where
  | gulfTags (r : GulfTagMap)
  | msaTags (r : MsaTagMap)
  | coda (r : List ExampleC)
deriving DecidableEq, Repr

def approxS : LC := "Approximate".toList
def exactS : LC := "Exact".toList

/-- Query-shape classifier, line 54: `query.translate(...punc...).isupper()`. -/
def isPosQ (q : LC) : Bool := pyIsUpper (q.filter (fun c => !punc.contains c))

/-- Query-shape classifier, line 56: `query[0] in ARABIC_LETTERS` (the
IndexError of `query[0]` on an empty query is raised by the caller). -/
def isArabicQ : LC → Bool
  | [] => false
  | c :: _ => ARABIC_LETTERS.contains c

/-- Query-shape classifier, lines 57-58: some character is lowercase and not
an Arabic letter. -/
def isGlossQ (q : LC) : Bool := q.any (fun c => c.isLower && !ARABIC_LETTERS.contains c)

/-- Lines 63-65: `query.split(':')`; the composite pair is formed only when
the split has exactly two parts. -/
def compositeParse (q : LC) : Option (LC × LC) :=
  match splitOnChar ':' q with
  | [a, b] => some (a, b)
  | _ => none

/-- Python `bool(kf.intersection(qf))` on character sets. -/
def charSetInter (kf qf : LC) : Bool := kf.any (fun c => qf.contains c)

/-- Python `qf == kf` on character sets built with `set(...)`. -/
def charSetEq (qf kf : LC) : Bool :=
  qf.all (fun c => kf.contains c) && kf.all (fun c => qf.contains c)

/-- The expression `set(k[1]) if len(k) == 2 else set()` (lines 70 and 183): the feature
set of a split key, taken from the tail of the split. -/
def featuresOfRest (rest : List LC) : LC :=
  match rest with
  | [f] => f
  | _ => []

/-- Lines 72-78: non-composite POS matching of a key `k`. -/
def posPlainMatch (mt q k : LC) : Bool :=
  if mt = approxS then pyIn q k
  else if mt = exactS then decide (q = k)
  else false

/-- Lines 66-85: POS matching of one key, including the composite
`POS:FEATURES` path (taken only when the parsed query POS part is a
non-empty string — Python truthiness of `query_pos`). -/
def posKeyMatch (mt q : LC) (qc : Option (LC × LC)) (k : LC) : Bool :=
  match qc with
  | none => posPlainMatch mt q k
  | some (qp, qfs) =>
    if qp = [] then posPlainMatch mt q k
    else
      match splitOnChar ':' k with
      | [] => false
      | kp :: rest =>
        let kfs : LC := featuresOfRest rest
        if mt = approxS then pyIn qp kp || charSetInter kfs qfs
        else if mt = exactS then decide (qp = kp) && charSetEq qfs kfs
        else false

/-- Lines 66-85: the POS-query loop over `tag_examples.items()`.  In the
non-composite path the matching groups are kept under their string keys.  In
the composite path line 69 rebinds the loop key `k` to the split LIST before
`response[k] = v` runs (lines 82 and 85), and a Python dict assignment with
a list key raises an uncaught TypeError: the first matching key aborts the
call, and when no key matches the loop completes with an empty mapping. -/
def posSearch {V : Type} (mt q : LC) (qc : Option (LC × LC)) (te : List (LC × V)) :
    Except PyErr (List (LC × V)) :=
  match qc with
  | some (qp, qfs) =>
    if qp = [] then .ok (te.filter (fun kv => posKeyMatch mt q (some (qp, qfs)) kv.1))
    else
      if te.any (fun kv => posKeyMatch mt q (some (qp, qfs)) kv.1) then
        .error .typeError
      else .ok []
  | none => .ok (te.filter (fun kv => posKeyMatch mt q none kv.1))

/-- Lines 96-102: the inner member loop building `v_` for one group. -/
def memberFilter {E : Type} (getF : E → LC) (mt q : LC) (v : List E) : List E :=
  if mt = approxS then v.filter (fun e => pyIn q (getF e))
  else if mt = exactS then v.filter (fun e => decide (q = getF e))
  else []

/-- Lines 94-104: the Arabic/gloss loop: per group keep the matching members,
dropping groups left empty. -/
def fieldSearch {E : Type} (getF : E → LC) (mt q : LC) (te : List (LC × List E)) :
    List (LC × List E) :=
  te.filterMap (fun kv =>
    let v2 := memberFilter getF mt q kv.2
    if v2.isEmpty then none else some (kv.1, v2))

/-- The lookup field of a Gulf example, lines 89-90: baseword/clitic by
segment type, overridden to gloss whenever the query classifies as gloss. -/
inductive GulfKey where
  | baseword
  | clitic
  | gloss
deriving DecidableEq, Repr

def gulfExampleKey (segment_type : LC) (is_gloss : Bool) : GulfKey :=
  let k := if pyLower segment_type = "baseword".toList then GulfKey.baseword else GulfKey.clitic
  if is_gloss then GulfKey.gloss else k

def getGulfField (k : GulfKey) (e : ExampleG) : LC :=
  match k with
  | GulfKey.baseword => e.baseword
  | GulfKey.clitic => e.clitic
  | GulfKey.gloss => e.gloss

/-- Lines 109-114: the CODA predicate on one example. -/
def codaMatch (mt q : LC) (e : ExampleC) : Bool :=
  if mt = approxS then pyIn q e.raw || pyIn q e.coda
  else if mt = exactS then decide (q = e.raw) || decide (q = e.coda)
  else false

/-- Lines 54-104 after `tag_examples` has been bound: query classification
and the two tag-search loops.  `gulfRes` is `'Gulf' in resource` (it decides
whether a composite POS query is parsed, line 62); `te` is the bound
`tag_examples` (`none` when neither 'Gulf' nor 'MSA' occurs in the resource,
in which case the loops raise NameError, and an untouched `{}` is returned
when no loop runs). -/
def tagsDispatch (q mt segment_type : LC) (gulfRes : Bool)
    (te : Option (GulfTagMap ⊕ MsaTagMap)) : Except PyErr Resp :=
  if q = [] then .error .indexError
  else
    let is_pos := isPosQ q
    let is_gloss := isGlossQ q
    let is_arabic := isArabicQ q
    if is_pos then
      match te with
      | some (.inl gte) =>
        match posSearch mt q (if gulfRes then compositeParse q else none) gte with
        | .error e => .error e
        | .ok r => .ok (.gulfTags r)
      | some (.inr mte) =>
        match posSearch mt q none mte with
        | .error e => .error e
        | .ok r => .ok (.msaTags r)
      | none => .error .nameError
    else if is_arabic || is_gloss then
      match te with
      | some (.inl gte) =>
        .ok (.gulfTags (fieldSearch (getGulfField (gulfExampleKey segment_type is_gloss)) mt q gte))
      | some (.inr mte) => .ok (.msaTags (fieldSearch ExampleM.segment mt q mte))
      | none => .error .nameError
    else
      match te with
      | some (.inr _) => .ok (.msaTags [])
      | _ => .ok (.gulfTags [])

/-- src/methods.py lines 23-116: search_bar_examples.  The Gulf store lookup
by lowered segment type (line 50, KeyError) happens before the query is
classified (line 56, IndexError on an empty query); a resource matching
neither branch leaves `response` unbound (NameError at `return`). -/
def search_bar_examples (query : LC) (gulf_tag_examples : GulfStore)
    (msa_tag_examples : MsaTagMap) (coda_examples : List ExampleC)
    (query_filter : ExamplesQueryFilter) : Except PyErr Resp :=
  if pyIn "Tags".toList query_filter.resource then
    if pyIn "Gulf".toList query_filter.resource then
      match pyDictGet gulf_tag_examples (pyLower query_filter.segment_type) with
      | none => .error .keyError
      | some te =>
        tagsDispatch query query_filter.match_type query_filter.segment_type true (some (.inl te))
    else if pyIn "MSA".toList query_filter.resource then
      tagsDispatch query query_filter.match_type query_filter.segment_type false
        (some (.inr msa_tag_examples))
    else
      tagsDispatch query query_filter.match_type query_filter.segment_type false none
  else if query_filter.resource = "CODA Examples".toList then
    .ok (.coda (coda_examples.filter (codaMatch query_filter.match_type query)))
  else .error .nameError

/- Annotation data model (§3 / src/methods.py lines 118-124 and the record
schema written by src/app.py): a record has fields original, raw, coda and
segments; segments is a sequence of tokens, each a sequence of sub-segments
with fields text, verb_form, pos, lemma, flag.  A feature value read from a
record dictionary is a string, a list of strings, or the nested segments
list (the Python Union type of line 122). -/

structure Segment where
  text : LC
  verb_form : LC
  pos : LC
  lemma_ : LC
  flag : LC
deriving DecidableEq, Repr

inductive AnnVal where
  | str (s : LC)
  | strList (l : List LC)
  | segs (l : List (List Segment))
deriving DecidableEq, Repr

structure AnnRecord where
  original : LC
  raw : AnnVal
  coda : AnnVal
  segments : List (List Segment)
deriving DecidableEq, Repr

/-- The `FilteredAnnotation` namedtuple (annotator, id, extracted value);
its third source field is named `annotation`. -/
structure FilteredAnn where
  annotator : LC
  id : Nat
  value : AnnVal
deriving DecidableEq, Repr

/-- The `AnnotationsQueryFilter` namedtuple (feature, field, match,
annotators); the third source field is named `match`, a Lean keyword. -/
structure AnnotationsQueryFilter where
  feature : LC
  field : LC
  match_type : LC
  annotators : LC
deriving DecidableEq, Repr

/-- The contents of config.json read at the top of
search_bar_previous_annotations (lines 146-149). -/
structure Config where
  annotators : List LC
  current_annotator : LC
deriving DecidableEq, Repr

/-- Python dictionary read `segment[key]` on a sub-segment (line 167; an
unknown key — e.g. field 'Verb Form' lowercases to 'verb form' — is a
KeyError). -/
def segGet (s : Segment) (key : LC) : Except PyErr LC :=
  if key = "text".toList then .ok s.text
  else if key = "verb_form".toList then .ok s.verb_form
  else if key = "pos".toList then .ok s.pos
  else if key = "lemma".toList then .ok s.lemma_
  else if key = "flag".toList then .ok s.flag
  else .error .keyError

/-- Python dictionary read `annotation[key]` on a record (line 170). -/
def annGet (a : AnnRecord) (key : LC) : Except PyErr AnnVal :=
  if key = "raw".toList then .ok a.raw
  else if key = "coda".toList then .ok a.coda
  else if key = "original".toList then .ok (.str a.original)
  else if key = "segments".toList then .ok (.segs a.segments)
  else .error .keyError

/-- Lines 164-167: flatten one token's sub-segments into filtered tuples. -/
def flattenTok (annotator : LC) (i : Nat) (fieldKey : LC) :
    List Segment → Except PyErr (List FilteredAnn)
  | [] => .ok []
  | seg :: rest =>
    match segGet seg fieldKey with
    | .error e => .error e
    | .ok v =>
      match flattenTok annotator i fieldKey rest with
      | .error e => .error e
      | .ok r => .ok (⟨annotator, i, .str v⟩ :: r)

/-- Lines 164-167: flatten every token of a record's segments. -/
def flattenToks (annotator : LC) (i : Nat) (fieldKey : LC) :
    List (List Segment) → Except PyErr (List FilteredAnn)
  | [] => .ok []
  | tok :: rest =>
    match flattenTok annotator i fieldKey tok with
    | .error e => .error e
    | .ok l =>
      match flattenToks annotator i fieldKey rest with
      | .error e => .error e
      | .ok r => .ok (l ++ r)

/-- Lines 163-170: the per-record flattening: descend into segments for the
'Segments' feature, otherwise read the snake-cased feature key directly. -/
def flattenOne (feature fld : LC) (annotator : LC) (i : Nat) (a : AnnRecord) :
    Except PyErr (List FilteredAnn) :=
  if feature = "Segments".toList then
    flattenToks annotator i (pyLower fld) a.segments
  else
    match annGet a (pyJoinUnder (pySplitWs (pyLower feature))) with
    | .error e => .error e
    | .ok v => .ok [⟨annotator, i, v⟩]

/-- Line 162: `for i, annotation in enumerate(annotations)`. -/
def flattenAnns (feature fld : LC) (annotator : LC) (i : Nat) :
    List AnnRecord → Except PyErr (List FilteredAnn)
  | [] => .ok []
  | a :: rest =>
    match flattenOne feature fld annotator i a with
    | .error e => .error e
    | .ok l =>
      match flattenAnns feature fld annotator (i + 1) rest with
      | .error e => .error e
      | .ok r => .ok (l ++ r)

/-- Lines 160-170: loop over `annotations_json.items()`, keeping annotators
whose key's part after the first '_' (IndexError when there is none) is a
lowered selected annotator. -/
def flattenAll (feature fld : LC) (low : List LC) :
    List (LC × List AnnRecord) → Except PyErr (List FilteredAnn)
  | [] => .ok []
  | (annotator, anns) :: rest =>
    match (splitOnChar '_' annotator).get? 1 with
    | none => .error .indexError
    | some a1 =>
      if a1 ∈ low then
        match flattenAnns feature fld annotator 0 anns with
        | .error e => .error e
        | .ok l =>
          match flattenAll feature fld low rest with
          | .error e => .error e
          | .ok r => .ok (l ++ r)
      else flattenAll feature fld low rest

/-- Python `query in value` (line 187): substring on a string, membership on
a list (always false on the nested segments list, whose elements are not
strings). -/
def pyInVal (q : LC) : AnnVal → Bool
  | .str s => pyIn q s
  | .strList l => decide (q ∈ l)
  | .segs _ => false

/-- Lines 192-195: `query in value` when the value is a list (isinstance
check), equality otherwise. -/
def exactVal (q : LC) : AnnVal → Bool
  | .str s => decide (q = s)
  | .strList l => decide (q ∈ l)
  | .segs _ => false

/-- Python `list.remove(x)` (line 156): drop the first occurrence, ValueError when
absent. -/
def pyRemoveFirst (x : LC) : List LC → Except PyErr (List LC)
  | [] => .error .valueError
  | y :: ys =>
    if y = x then .ok ys
    else
      match pyRemoveFirst x ys with
      | .error e => .error e
      | .ok r => .ok (y :: r)

/-- Lines 152-156: resolve the annotator selection against the configured
annotator list. -/
def resolveAnnotators (cfg : Config) (sel : LC) : Except PyErr (List LC) :=
  let annotators := if sel ∈ cfg.annotators then [sel] else cfg.annotators
  if sel = "All But Me".toList then pyRemoveFirst cfg.current_annotator annotators
  else .ok annotators

/-- Lines 190, 199, 205, 209: `annotations_json[annotator][id]['original']`. -/
def lookupOriginal (aj : List (LC × List AnnRecord)) (fa : FilteredAnn) :
    Except PyErr LC :=
  match pyDictGet aj fa.annotator with
  | none => .error .keyError
  | some anns =>
    match anns.get? fa.id with
    | none => .error .indexError
    | some a => .ok a.original

def appendLookup (aj : List (LC × List AnnRecord)) (resp : List LC)
    (fa : FilteredAnn) : Except PyErr (List LC) :=
  match lookupOriginal aj fa with
  | .error e => .error e
  | .ok o => .ok (resp ++ [o])

/-- Lines 185-199: the non-composite matching step for one flattened tuple
(the `already_added` list is consulted but the source never appends to it). -/
def plainStep (aj : List (LC × List AnnRecord)) (mt q : LC)
    (already : List (LC × Nat)) (resp : List LC) (fa : FilteredAnn) :
    Except PyErr (List LC) :=
  if mt = approxS then
    if pyInVal q fa.value && !(decide ((fa.annotator, fa.id) ∈ already)) then
      appendLookup aj resp fa
    else .ok resp
  else if mt = exactS then
    if exactVal q fa.value && !(decide ((fa.annotator, fa.id) ∈ already)) then
      appendLookup aj resp fa
    else .ok resp
  else .ok resp

/-- Lines 179-209: matching step for one flattened tuple; the composite path
splits the extracted value (AttributeError when it is a list). -/
def annStep (aj : List (LC × List AnnRecord)) (mt q : LC)
    (qc : Option (LC × LC)) (already : List (LC × Nat)) (resp : List LC)
    (fa : FilteredAnn) : Except PyErr (List LC) :=
  match qc with
  | none => plainStep aj mt q already resp fa
  | some (qp, qfs) =>
    if qp = [] then plainStep aj mt q already resp fa
    else
      match fa.value with
      | .str s =>
        match splitOnChar ':' s with
        | [] => .error .indexError
        | kp :: rest =>
          let kfs : LC := featuresOfRest rest
          if !(decide ((fa.annotator, fa.id) ∈ already)) then
            if mt = approxS then
              if pyIn qp kp || charSetInter kfs qfs then appendLookup aj resp fa
              else .ok resp
            else if mt = exactS then
              if decide (qp = kp) && charSetEq qfs kfs then appendLookup aj resp fa
              else .ok resp
            else .ok resp
          else .ok resp
      | .strList _ => .error .attributeError
      | .segs _ => .error .attributeError

/-- Lines 179-209: the matching loop over the flattened tuples. -/
def matchLoop (aj : List (LC × List AnnRecord)) (mt q : LC)
    (qc : Option (LC × LC)) (already : List (LC × Nat)) (resp : List LC) :
    List FilteredAnn → Except PyErr (List LC)
  | [] => .ok resp
  | fa :: rest =>
    match annStep aj mt q qc already resp fa with
    | .error e => .error e
    | .ok resp2 => matchLoop aj mt q qc already resp2 rest

/-- src/methods.py lines 127-211: search_bar_previous_annotations.  The
function reads config.json on every call; `cfg` is that file's parsed
contents, an input the Python signature does not declare. -/
def search_bar_previous_annotations (cfg : Config) (query : LC)
    (annotations_json : List (LC × List AnnRecord))
    (query_filter : AnnotationsQueryFilter) : Except PyErr (List LC) :=
  match resolveAnnotators cfg query_filter.annotators with
  | .error e => .error e
  | .ok annotators =>
    match flattenAll query_filter.feature query_filter.field
        (annotators.map pyLower) annotations_json with
    | .error e => .error e
    | .ok filtered =>
      let qc :=
        if query_filter.field = "POS".toList then compositeParse query else none
      matchLoop annotations_json query_filter.match_type query qc [] [] filtered

/-- Python `list.remove(d)` on the loaded record list (src/app.py line 90): drop the
first element equal to `d` (here always called with an element of the list,
found by the matching loop, so the absent case cannot raise). -/
def removeFirstRec : List AnnRecord → AnnRecord → List AnnRecord
  | [], _ => []
  | x :: xs, d => if x = d then xs else x :: removeFirstRec xs d

/-- src/app.py lines 83-95 (data_get): find the first stored record whose
`original` equals the incoming record's, copy its `raw` onto the incoming
record and remove it, then append the incoming record. -/
def data_get_update (dataaz : List AnnRecord) (newData : AnnRecord) :
    List AnnRecord :=
  match dataaz.find? (fun d => decide (d.original = newData.original)) with
  | none => dataaz ++ [newData]
  | some d => removeFirstRec dataaz d ++ [{ newData with raw := d.raw }]

/- State threading for the frame claims: the stores search_bar_examples
receives, and the config file search_bar_previous_annotations reads.  Each
store access of the source is a read; the final state is returned so that
"the inputs are unchanged" is a statement about the embedding. -/

abbrev Stores := GulfStore × MsaTagMap × List ExampleC

def readGulfStore (s : Stores) : GulfStore × Stores := (s.1, s)

def readMsaStore (s : Stores) : MsaTagMap × Stores := (s.2.1, s)

def readCodaStore (s : Stores) : List ExampleC × Stores := (s.2.2, s)

/-- search_bar_examples as a transformer on the store state: it reads the
three stores and computes the response from the read snapshots. -/
def search_bar_examples_st (query : LC) (query_filter : ExamplesQueryFilter)
    (s : Stores) : Except PyErr Resp × Stores :=
  let (g, s1) := readGulfStore s
  let (m, s2) := readMsaStore s1
  let (c, s3) := readCodaStore s2
  (search_bar_examples query g m c query_filter, s3)

def readConfigFile (fs : Config) : Config × Config := (fs, fs)

/-- search_bar_previous_annotations as a transformer on the config-file
state it reads at the top of every call (lines 146-149). -/
def search_bar_previous_annotations_run (query : LC)
    (annotations_json : List (LC × List AnnRecord))
    (query_filter : AnnotationsQueryFilter) (fs : Config) :
    Except PyErr (List LC) × Config :=
  let (cfg, fs1) := readConfigFile fs
  (search_bar_previous_annotations cfg query annotations_json query_filter, fs1)

/- Basic lemmas about the Python-primitive embeddings. -/

theorem listPrefixOf_refl (l : LC) : listPrefixOf l l = true := by
  induction l with
  | nil => rfl
  | cons a as ih => simp [listPrefixOf, ih]

theorem pyIn_self (l : LC) : pyIn l l = true := by
  cases l with
  | nil => rfl
  | cons c rest => simp [pyIn, listPrefixOf_refl]

theorem pyIn_of_eq {q k : LC} (h : q = k) : pyIn q k = true := h ▸ pyIn_self q

theorem pyIn_nil (l : LC) : pyIn [] l = true := by
  cases l with
  | nil => rfl
  | cons c rest => simp [pyIn, listPrefixOf]

theorem approxS_ne_exactS : exactS ≠ approxS := by decide

/-- Pointwise-implied filters give sublists. -/
theorem filter_sublist_of_imp {α : Type} (l : List α) (p q : α → Bool)
    (h : ∀ a, p a = true → q a = true) : (l.filter p).Sublist (l.filter q) :=
  List.monotone_filter_right l h

theorem posPlainMatch_mono {q k : LC} (h : posPlainMatch exactS q k = true) :
    posPlainMatch approxS q k = true := by
  simp only [posPlainMatch, if_neg approxS_ne_exactS, if_pos rfl] at h ⊢
  exact pyIn_of_eq (by simpa using h)

theorem posKeyMatch_mono {q : LC} {qc : Option (LC × LC)} {k : LC}
    (h : posKeyMatch exactS q qc k = true) : posKeyMatch approxS q qc k = true := by
  cases qc with
  | none => exact posPlainMatch_mono h
  | some p =>
    obtain ⟨qp, qfs⟩ := p
    simp only [posKeyMatch] at h ⊢
    by_cases hqp : qp = []
    · rw [if_pos hqp] at h ⊢
      exact posPlainMatch_mono h
    · rw [if_neg hqp] at h ⊢
      cases hs : splitOnChar ':' k with
      | nil => rw [hs] at h; exact absurd h (by simp)
      | cons kp rest =>
        rw [hs] at h
        simp only [if_neg approxS_ne_exactS, if_pos rfl] at h
        simp only [if_pos rfl]
        have hpos : qp = kp := by
          have := And.left (by simpa using h)
          simpa using this
        simp [pyIn_of_eq hpos]

theorem posSearch_ok_superset {V : Type} (q : LC) (qc : Option (LC × LC))
    (te : List (LC × V)) :
    ∀ r2, posSearch approxS q qc te = .ok r2 →
      ∃ r1, posSearch exactS q qc te = .ok r1 ∧ r1.Sublist r2 := by
  intro r2 h
  cases qc with
  | none =>
    simp only [posSearch] at h ⊢
    refine ⟨te.filter (fun kv => posKeyMatch exactS q none kv.1), rfl, ?_⟩
    have hr : r2 = te.filter (fun kv => posKeyMatch approxS q none kv.1) := by
      simpa using h.symm
    rw [hr]
    exact filter_sublist_of_imp te _ _ (fun _ hx => posKeyMatch_mono hx)
  | some p =>
    obtain ⟨qp, qfs⟩ := p
    simp only [posSearch] at h ⊢
    by_cases hqp : qp = []
    · rw [if_pos hqp] at h ⊢
      refine ⟨_, rfl, ?_⟩
      have hr : r2 = te.filter (fun kv => posKeyMatch approxS q (some (qp, qfs)) kv.1) := by
        simpa using h.symm
      rw [hr]
      exact filter_sublist_of_imp te _ _ (fun _ hx => posKeyMatch_mono hx)
    · rw [if_neg hqp] at h ⊢
      by_cases hany : te.any (fun kv => posKeyMatch approxS q (some (qp, qfs)) kv.1) = true
      · rw [if_pos hany] at h; exact absurd h (by simp)
      · rw [if_neg hany] at h
        have hr : r2 = [] := by simpa using h.symm
        have hanyE : ¬(te.any (fun kv => posKeyMatch exactS q (some (qp, qfs)) kv.1) = true) := by
          intro hcon
          apply hany
          obtain ⟨kv, hkm, hkp⟩ := List.any_eq_true.mp hcon
          exact List.any_eq_true.mpr ⟨kv, hkm, posKeyMatch_mono hkp⟩
        rw [if_neg hanyE]
        refine ⟨[], rfl, ?_⟩
        rw [hr]

theorem memberFilter_sublist {E : Type} (getF : E → LC) (q : LC) (v : List E) :
    (memberFilter getF exactS q v).Sublist (memberFilter getF approxS q v) := by
  simp only [memberFilter, if_neg approxS_ne_exactS, if_pos rfl]
  exact filter_sublist_of_imp v _ _ (fun e h => pyIn_of_eq (by simpa using h))

/-- The group-map superset relation of the claim: every group kept by the
first result is kept by the second with at least the same members. -/
def tagSuperset {E : Type} (r1 r2 : List (LC × List E)) : Prop :=
  ∀ k v1, (k, v1) ∈ r1 → ∃ v2, (k, v2) ∈ r2 ∧ v1.Sublist v2

/-- The superset relation on search_bar_examples responses. -/
def respSuperset : Resp → Resp → Prop
  | .gulfTags r1, .gulfTags r2 => tagSuperset r1 r2
  | .msaTags r1, .msaTags r2 => tagSuperset r1 r2
  | .coda l1, .coda l2 => l1.Sublist l2
  | _, _ => False

theorem tagSuperset_of_sublist {E : Type} {r1 r2 : List (LC × List E)}
    (h : r1.Sublist r2) : tagSuperset r1 r2 :=
  fun _ v1 hm => ⟨v1, h.mem hm, List.Sublist.refl v1⟩

theorem fieldSearch_superset {E : Type} (getF : E → LC) (q : LC)
    (te : List (LC × List E)) :
    tagSuperset (fieldSearch getF exactS q te) (fieldSearch getF approxS q te) := by
  intro k v1 hm
  simp only [fieldSearch, List.mem_filterMap] at hm
  obtain ⟨kv, hkv, heq⟩ := hm
  by_cases he : (memberFilter getF exactS q kv.2).isEmpty
  · rw [if_pos he] at heq; exact absurd heq (by simp)
  · rw [if_neg he] at heq
    obtain ⟨hk, hv⟩ := Prod.mk.injEq .. ▸ Option.some.injEq .. ▸ heq
    refine ⟨memberFilter getF approxS q kv.2, ?_, ?_⟩
    · simp only [fieldSearch, List.mem_filterMap]
      refine ⟨kv, hkv, ?_⟩
      rw [if_neg ?_]
      · rw [hk]
      · intro hcon
        apply he
        have hsub := memberFilter_sublist getF q kv.2
        rw [List.isEmpty_iff] at hcon ⊢
        exact List.sublist_nil.mp (hcon ▸ hsub)
    · rw [← hv]; exact memberFilter_sublist getF q kv.2

theorem codaFilter_sublist (q : LC) (c : List ExampleC) :
    (c.filter (codaMatch exactS q)).Sublist (c.filter (codaMatch approxS q)) := by
  apply filter_sublist_of_imp
  intro e h
  simp only [codaMatch, if_neg approxS_ne_exactS, if_pos rfl] at h ⊢
  rcases (Bool.or_eq_true _ _).mp h with h1 | h1
  · exact (Bool.or_eq_true _ _).mpr (Or.inl (pyIn_of_eq (of_decide_eq_true h1)))
  · exact (Bool.or_eq_true _ _).mpr (Or.inr (pyIn_of_eq (of_decide_eq_true h1)))

theorem tagsDispatch_superset (q st : LC) (gr : Bool)
    (te : Option (GulfTagMap ⊕ MsaTagMap)) :
    ∀ r2, tagsDispatch q approxS st gr te = .ok r2 →
      ∃ r1, tagsDispatch q exactS st gr te = .ok r1 ∧ respSuperset r1 r2 := by
  intro r2 h
  simp only [tagsDispatch] at h ⊢
  by_cases hq : q = []
  · rw [if_pos hq] at h; exact absurd h (by simp)
  · rw [if_neg hq] at h ⊢
    by_cases hp : isPosQ q = true
    · rw [if_pos hp] at h ⊢
      cases te with
      | none => exact absurd h (by simp)
      | some c =>
        cases c with
        | inl gte =>
          simp only [] at h
          revert h
          cases hps : posSearch approxS q (if gr then compositeParse q else none) gte with
          | error e => intro h; exact absurd h (by simp)
          | ok rr =>
            intro h
            have hr2 : r2 = .gulfTags rr := by simpa using h.symm
            obtain ⟨r1p, hok, hsub⟩ := posSearch_ok_superset q _ gte rr hps
            simp only []
            rw [hok]
            refine ⟨.gulfTags r1p, rfl, ?_⟩
            rw [hr2]
            exact tagSuperset_of_sublist hsub
        | inr mte =>
          simp only [] at h
          revert h
          cases hps : posSearch approxS q none mte with
          | error e => intro h; exact absurd h (by simp)
          | ok rr =>
            intro h
            have hr2 : r2 = .msaTags rr := by simpa using h.symm
            obtain ⟨r1p, hok, hsub⟩ := posSearch_ok_superset q none mte rr hps
            simp only []
            rw [hok]
            refine ⟨.msaTags r1p, rfl, ?_⟩
            rw [hr2]
            exact tagSuperset_of_sublist hsub
    · rw [if_neg hp] at h ⊢
      by_cases hag : (isArabicQ q || isGlossQ q) = true
      · rw [if_pos hag] at h ⊢
        cases te with
        | none => exact absurd h (by simp)
        | some c =>
          cases c with
          | inl gte =>
            refine ⟨_, rfl, ?_⟩
            have hr : r2 = .gulfTags (fieldSearch
                (getGulfField (gulfExampleKey st (isGlossQ q))) approxS q gte) := by
              simpa using h.symm
            rw [hr]
            exact fieldSearch_superset _ q gte
          | inr mte =>
            refine ⟨_, rfl, ?_⟩
            have hr : r2 = .msaTags (fieldSearch ExampleM.segment approxS q mte) := by
              simpa using h.symm
            rw [hr]
            exact fieldSearch_superset _ q mte
      · rw [if_neg hag] at h ⊢
        cases te with
        | none =>
          refine ⟨.gulfTags [], rfl, ?_⟩
          have hr : r2 = .gulfTags [] := by simpa using h.symm
          rw [hr]
          exact fun k v1 hm => absurd hm (by simp)
        | some c =>
          cases c with
          | inl gte =>
            refine ⟨.gulfTags [], rfl, ?_⟩
            have hr : r2 = .gulfTags [] := by simpa using h.symm
            rw [hr]
            exact fun k v1 hm => absurd hm (by simp)
          | inr mte =>
            refine ⟨.msaTags [], rfl, ?_⟩
            have hr : r2 = .msaTags [] := by simpa using h.symm
            rw [hr]
            exact fun k v1 hm => absurd hm (by simp)

theorem exactVal_mono {q : LC} {v : AnnVal} (h : exactVal q v = true) :
    pyInVal q v = true := by
  cases v with
  | str s => exact pyIn_of_eq (of_decide_eq_true h)
  | strList l => exact h
  | segs l => exact absurd h (by simp [exactVal])

/-- The response lookup succeeds for a flattened tuple. -/
def lookupOk (aj : List (LC × List AnnRecord)) (fa : FilteredAnn) : Prop :=
  ∃ o, lookupOriginal aj fa = .ok o

theorem appendLookup_eq {aj : List (LC × List AnnRecord)} {fa : FilteredAnn}
    {o : LC} (h : lookupOriginal aj fa = .ok o) (resp : List LC) :
    appendLookup aj resp fa = .ok (resp ++ [o]) := by
  simp [appendLookup, h]

theorem plainStep_superset {aj : List (LC × List AnnRecord)} {q : LC}
    {already : List (LC × Nat)} {fa : FilteredAnn} (hok : lookupOk aj fa)
    {r1 r2 : List LC} (hacc : r1.Sublist r2) :
    ∀ o1, plainStep aj exactS q already r1 fa = .ok o1 →
      ∃ o2, plainStep aj approxS q already r2 fa = .ok o2 ∧ o1.Sublist o2 := by
  intro o1 h
  obtain ⟨o, ho⟩ := hok
  simp only [plainStep, if_neg approxS_ne_exactS, if_pos rfl] at h ⊢
  by_cases hc : (exactVal q fa.value && !(decide ((fa.annotator, fa.id) ∈ already))) = true
  · rw [if_pos hc] at h
    rw [appendLookup_eq ho] at h
    have ho1 : o1 = r1 ++ [o] := (Except.ok.injEq _ _ ▸ h).symm
    obtain ⟨hcv, hcna⟩ := Bool.and_eq_true _ _ ▸ hc
    have hc2 : (pyInVal q fa.value && !(decide ((fa.annotator, fa.id) ∈ already))) = true :=
      Bool.and_eq_true _ _ ▸ ⟨exactVal_mono hcv, hcna⟩
    rw [if_pos hc2, appendLookup_eq ho r2]
    exact ⟨r2 ++ [o], rfl, ho1 ▸ hacc.append (List.Sublist.refl [o])⟩
  · rw [if_neg hc] at h
    have ho1 : o1 = r1 := (Except.ok.injEq _ _ ▸ h).symm
    by_cases hc2 : (pyInVal q fa.value && !(decide ((fa.annotator, fa.id) ∈ already))) = true
    · rw [if_pos hc2, appendLookup_eq ho r2]
      refine ⟨r2 ++ [o], rfl, ho1 ▸ hacc.trans ?_⟩
      exact (List.sublist_append_left r2 [o])
    · rw [if_neg hc2]
      exact ⟨r2, rfl, ho1 ▸ hacc⟩

theorem annStep_superset {aj : List (LC × List AnnRecord)} {q : LC}
    {qc : Option (LC × LC)} {already : List (LC × Nat)} {fa : FilteredAnn}
    (hok : lookupOk aj fa) {r1 r2 : List LC} (hacc : r1.Sublist r2) :
    ∀ o1, annStep aj exactS q qc already r1 fa = .ok o1 →
      ∃ o2, annStep aj approxS q qc already r2 fa = .ok o2 ∧ o1.Sublist o2 := by
  intro o1 h
  obtain ⟨o, ho⟩ := hok
  cases qc with
  | none => exact plainStep_superset ⟨o, ho⟩ hacc o1 h
  | some p =>
    obtain ⟨qp, qfs⟩ := p
    simp only [annStep] at h ⊢
    by_cases hqp : qp = []
    · rw [if_pos hqp] at h ⊢
      exact plainStep_superset ⟨o, ho⟩ hacc o1 h
    · rw [if_neg hqp] at h ⊢
      cases hv : fa.value with
      | str s =>
        rw [hv] at h
        simp only [] at h ⊢
        cases hs : splitOnChar ':' s with
        | nil => rw [hs] at h; exact absurd h (by simp)
        | cons kp rest =>
          rw [hs] at h
          simp only [] at h
          simp only []
          by_cases hna : (!(decide ((fa.annotator, fa.id) ∈ already))) = true
          · rw [if_pos hna] at h ⊢
            simp only [if_neg approxS_ne_exactS, if_true, eq_self_iff_true] at h ⊢
            by_cases hc : (decide (qp = kp) &&
                charSetEq qfs (featuresOfRest rest)) = true
            · rw [if_pos hc] at h
              rw [appendLookup_eq ho] at h
              have ho1 : o1 = r1 ++ [o] := (Except.ok.injEq _ _ ▸ h).symm
              obtain ⟨hcp, _⟩ := Bool.and_eq_true _ _ ▸ hc
              have hc2 : (pyIn qp kp ||
                  charSetInter (featuresOfRest rest) qfs) = true :=
                Bool.or_eq_true _ _ ▸ Or.inl (pyIn_of_eq (of_decide_eq_true hcp))
              rw [if_pos hc2, appendLookup_eq ho r2]
              exact ⟨r2 ++ [o], rfl, ho1 ▸ hacc.append (List.Sublist.refl [o])⟩
            · rw [if_neg hc] at h
              have ho1 : o1 = r1 := (Except.ok.injEq _ _ ▸ h).symm
              by_cases hc2 : (pyIn qp kp ||
                  charSetInter (featuresOfRest rest) qfs) = true
              · rw [if_pos hc2, appendLookup_eq ho r2]
                exact ⟨r2 ++ [o], rfl, ho1 ▸ hacc.trans (List.sublist_append_left r2 [o])⟩
              · rw [if_neg hc2]
                exact ⟨r2, rfl, ho1 ▸ hacc⟩
          · rw [if_neg hna] at h ⊢
            have ho1 : o1 = r1 := (Except.ok.injEq _ _ ▸ h).symm
            exact ⟨r2, rfl, ho1 ▸ hacc⟩
      | strList l => rw [hv] at h; simp only [] at h; exact absurd h (by simp)
      | segs l => rw [hv] at h; simp only [] at h; exact absurd h (by simp)

theorem matchLoop_superset (aj : List (LC × List AnnRecord)) (q : LC)
    (qc : Option (LC × LC)) :
    ∀ (l : List FilteredAnn) (already : List (LC × Nat)) (r1 r2 : List LC),
      r1.Sublist r2 → (∀ fa ∈ l, lookupOk aj fa) →
      ∀ out1, matchLoop aj exactS q qc already r1 l = .ok out1 →
        ∃ out2, matchLoop aj approxS q qc already r2 l = .ok out2 ∧ out1.Sublist out2 := by
  intro l
  induction l with
  | nil =>
    intro already r1 r2 hacc _ out1 h
    simp only [matchLoop] at h
    refine ⟨r2, by simp [matchLoop], ?_⟩
    have hr : r1 = out1 := by simpa using h
    exact hr ▸ hacc
  | cons fa rest ih =>
    intro already r1 r2 hacc hall out1 h
    simp only [matchLoop] at h ⊢
    cases hstep : annStep aj exactS q qc already r1 fa with
    | error e => rw [hstep] at h; exact absurd h (by simp)
    | ok resp2 =>
      rw [hstep] at h
      obtain ⟨resp2', hstep', hsub⟩ :=
        annStep_superset (hall fa (List.mem_cons_self fa rest)) hacc resp2 hstep
      rw [hstep']
      exact ih already resp2 resp2' hsub
        (fun fa' hm => hall fa' (List.mem_cons_of_mem fa hm)) out1 h

theorem flattenTok_mem (annotator : LC) (i : Nat) (fk : LC) :
    ∀ (tok : List Segment) (l : List FilteredAnn),
      flattenTok annotator i fk tok = .ok l →
      ∀ fa ∈ l, fa.annotator = annotator ∧ fa.id = i := by
  intro tok
  induction tok with
  | nil =>
    intro l h fa hm
    simp only [flattenTok] at h
    have : l = [] := by simpa using h.symm
    exact absurd (this ▸ hm) (by simp)
  | cons seg rest ih =>
    intro l h fa hm
    simp only [flattenTok] at h
    cases hg : segGet seg fk with
    | error e => rw [hg] at h; exact absurd h (by simp)
    | ok v =>
      rw [hg] at h
      cases hr : flattenTok annotator i fk rest with
      | error e => rw [hr] at h; exact absurd h (by simp)
      | ok r =>
        rw [hr] at h
        have hl : l = ⟨annotator, i, .str v⟩ :: r := by simpa using h.symm
        rcases List.mem_cons.mp (hl ▸ hm) with hh | hh
        · simp [hh]
        · exact ih r hr fa hh

theorem flattenToks_mem (annotator : LC) (i : Nat) (fk : LC) :
    ∀ (toks : List (List Segment)) (l : List FilteredAnn),
      flattenToks annotator i fk toks = .ok l →
      ∀ fa ∈ l, fa.annotator = annotator ∧ fa.id = i := by
  intro toks
  induction toks with
  | nil =>
    intro l h fa hm
    simp only [flattenToks] at h
    have : l = [] := by simpa using h.symm
    exact absurd (this ▸ hm) (by simp)
  | cons tok rest ih =>
    intro l h fa hm
    simp only [flattenToks] at h
    cases hg : flattenTok annotator i fk tok with
    | error e => rw [hg] at h; exact absurd h (by simp)
    | ok v =>
      rw [hg] at h
      cases hr : flattenToks annotator i fk rest with
      | error e => rw [hr] at h; exact absurd h (by simp)
      | ok r =>
        rw [hr] at h
        have hl : l = v ++ r := by simpa using h.symm
        rcases List.mem_append.mp (hl ▸ hm) with hh | hh
        · exact flattenTok_mem annotator i fk tok v hg fa hh
        · exact ih r hr fa hh

theorem flattenOne_mem (feature fld : LC) (annotator : LC) (i : Nat)
    (a : AnnRecord) (l : List FilteredAnn) (h : flattenOne feature fld annotator i a = .ok l) :
    ∀ fa ∈ l, fa.annotator = annotator ∧ fa.id = i := by
  intro fa hm
  simp only [flattenOne] at h
  by_cases hf : feature = "Segments".toList
  · rw [if_pos hf] at h
    exact flattenToks_mem annotator i (pyLower fld) a.segments l h fa hm
  · rw [if_neg hf] at h
    cases hg : annGet a (pyJoinUnder (pySplitWs (pyLower feature))) with
    | error e => rw [hg] at h; exact absurd h (by simp)
    | ok v =>
      rw [hg] at h
      have hl : l = [⟨annotator, i, v⟩] := by simpa using h.symm
      subst hl
      have hfa : fa = ⟨annotator, i, v⟩ := by simpa using hm
      simp [hfa]

theorem flattenAnns_mem (feature fld : LC) (annotator : LC) :
    ∀ (anns : List AnnRecord) (i : Nat) (l : List FilteredAnn),
      flattenAnns feature fld annotator i anns = .ok l →
      ∀ fa ∈ l, fa.annotator = annotator ∧ fa.id < i + anns.length := by
  intro anns
  induction anns with
  | nil =>
    intro i l h fa hm
    simp only [flattenAnns] at h
    have : l = [] := by simpa using h.symm
    exact absurd (this ▸ hm) (by simp)
  | cons a rest ih =>
    intro i l h fa hm
    simp only [flattenAnns] at h
    cases hg : flattenOne feature fld annotator i a with
    | error e => rw [hg] at h; exact absurd h (by simp)
    | ok v =>
      rw [hg] at h
      cases hr : flattenAnns feature fld annotator (i + 1) rest with
      | error e => rw [hr] at h; exact absurd h (by simp)
      | ok r =>
        rw [hr] at h
        have hl : l = v ++ r := by simpa using h.symm
        rcases List.mem_append.mp (hl ▸ hm) with hh | hh
        · obtain ⟨ha, hi⟩ := flattenOne_mem feature fld annotator i a v hg fa hh
          refine ⟨ha, ?_⟩
          rw [List.length_cons]
          omega
        · obtain ⟨ha, hi⟩ := ih (i + 1) r hr fa hh
          refine ⟨ha, ?_⟩
          rw [List.length_cons]
          omega

theorem flattenAll_mem (feature fld : LC) (low : List LC) :
    ∀ (aj : List (LC × List AnnRecord)) (l : List FilteredAnn),
      flattenAll feature fld low aj = .ok l →
      ∀ fa ∈ l, ∃ anns, (fa.annotator, anns) ∈ aj ∧ fa.id < anns.length := by
  intro aj
  induction aj with
  | nil =>
    intro l h fa hm
    simp only [flattenAll] at h
    have : l = [] := by simpa using h.symm
    exact absurd (this ▸ hm) (by simp)
  | cons kv rest ih =>
    intro l h fa hm
    obtain ⟨annotator, anns⟩ := kv
    simp only [flattenAll] at h
    cases hsp : (splitOnChar '_' annotator).get? 1 with
    | none => rw [hsp] at h; exact absurd h (by simp)
    | some a1 =>
      rw [hsp] at h
      simp only [] at h
      by_cases hin : a1 ∈ low
      · rw [if_pos hin] at h
        cases hg : flattenAnns feature fld annotator 0 anns with
        | error e => rw [hg] at h; exact absurd h (by simp)
        | ok v =>
          rw [hg] at h
          cases hr : flattenAll feature fld low rest with
          | error e => rw [hr] at h; exact absurd h (by simp)
          | ok r =>
            rw [hr] at h
            have hl : l = v ++ r := by simpa using h.symm
            rcases List.mem_append.mp (hl ▸ hm) with hh | hh
            · obtain ⟨ha, hi⟩ := flattenAnns_mem feature fld annotator anns 0 v hg fa hh
              exact ⟨anns, by rw [ha]; exact List.mem_cons_self _ _, by simpa using hi⟩
            · obtain ⟨anns', hmem, hlt⟩ := ih r hr fa hh
              exact ⟨anns', List.mem_cons_of_mem _ hmem, hlt⟩
      · rw [if_neg hin] at h
        obtain ⟨anns', hmem, hlt⟩ := ih l h fa hm
        exact ⟨anns', List.mem_cons_of_mem _ hmem, hlt⟩

/-- On a dictionary with unique keys (every Python dict), the read of a
present key returns its value. -/
theorem pyDictGet_nodup_mem {β : Type} :
    ∀ (d : List (LC × β)) (k : LC) (v : β),
      (d.map Prod.fst).Nodup → (k, v) ∈ d → pyDictGet d k = some v := by
  intro d
  induction d with
  | nil => intro k v _ hm; exact absurd hm (by simp)
  | cons kv rest ih =>
    intro k v hnd hm
    obtain ⟨k0, v0⟩ := kv
    have hnd2 : k0 ∉ rest.map Prod.fst ∧ (rest.map Prod.fst).Nodup := by
      rw [List.map_cons] at hnd
      exact List.nodup_cons.mp hnd
    rcases List.mem_cons.mp hm with hh | hh
    · have hk : k = k0 := congrArg Prod.fst hh
      have hv : v = v0 := congrArg Prod.snd hh
      unfold pyDictGet
      rw [List.find?_cons_of_pos _ (by simp [hk.symm])]
      simp [hv.symm]
    · have hk0 : k0 ≠ k := by
        intro hcon
        have hmem : k0 ∈ rest.map Prod.fst := by
          rw [hcon]
          exact List.mem_map_of_mem Prod.fst hh
        exact hnd2.1 hmem
      have hres := ih k v hnd2.2 hh
      unfold pyDictGet at hres ⊢
      rw [List.find?_cons_of_neg _ (by simp [hk0])]
      exact hres

theorem flattenAll_lookupOk (feature fld : LC) (low : List LC)
    (aj : List (LC × List AnnRecord)) (l : List FilteredAnn)
    (hnd : (aj.map Prod.fst).Nodup) (h : flattenAll feature fld low aj = .ok l) :
    ∀ fa ∈ l, lookupOk aj fa := by
  intro fa hm
  obtain ⟨anns, hmem, hlt⟩ := flattenAll_mem feature fld low aj l h fa hm
  have hget : pyDictGet aj fa.annotator = some anns := pyDictGet_nodup_mem aj _ anns hnd hmem
  cases hga : anns.get? fa.id with
  | none => exact absurd (List.get?_eq_none.mp hga) (by omega)
  | some a =>
    refine ⟨a.original, ?_⟩
    unfold lookupOriginal
    rw [hget]
    simp only []
    rw [hga]

/-- General superset behaviour of the embedded code, short of the composite
TypeError slip: whenever the Approximate-mode example search returns a
result, the Exact-mode search also returns one and the Approximate result is
a superset of it (same groups, per group at least the same members; a
sublist for CODA); and the Exact-mode previous-annotation result list is
always a sublist of the Approximate-mode one when the Exact call returns
(annotation dictionaries have unique keys, as every Python dict does). -/
theorem search_superset_lemma
    (query : LC) (g : GulfStore) (m : MsaTagMap) (c : List ExampleC) (st res : LC)
    (cfg : Config) (aj : List (LC × List AnnRecord)) (feat fld sel : LC)
    (hnd : (aj.map Prod.fst).Nodup) :
    (∀ r2, search_bar_examples query g m c ⟨st, approxS, res⟩ = .ok r2 →
      ∃ r1, search_bar_examples query g m c ⟨st, exactS, res⟩ = .ok r1 ∧ respSuperset r1 r2)
    ∧
    (∀ l1, search_bar_previous_annotations cfg query aj ⟨feat, fld, exactS, sel⟩ = .ok l1 →
      ∃ l2, search_bar_previous_annotations cfg query aj ⟨feat, fld, approxS, sel⟩ = .ok l2 ∧
        l1.Sublist l2) := by
  constructor
  · intro r2 h
    simp only [search_bar_examples] at h ⊢
    by_cases ht : pyIn "Tags".toList res = true
    · rw [if_pos ht] at h ⊢
      by_cases hgu : pyIn "Gulf".toList res = true
      · rw [if_pos hgu] at h ⊢
        cases hl : pyDictGet g (pyLower st) with
        | none => rw [hl] at h; exact absurd h (by simp)
        | some te =>
          rw [hl] at h
          simp only [] at h ⊢
          exact tagsDispatch_superset query st true _ r2 h
      · rw [if_neg hgu] at h ⊢
        by_cases hm2 : pyIn "MSA".toList res = true
        · rw [if_pos hm2] at h ⊢
          exact tagsDispatch_superset query st false _ r2 h
        · rw [if_neg hm2] at h ⊢
          exact tagsDispatch_superset query st false none r2 h
    · rw [if_neg ht] at h ⊢
      by_cases hc : res = "CODA Examples".toList
      · rw [if_pos hc] at h ⊢
        have hr : r2 = .coda (c.filter (codaMatch approxS query)) := by simpa using h.symm
        refine ⟨.coda (c.filter (codaMatch exactS query)), rfl, ?_⟩
        rw [hr]
        exact codaFilter_sublist query c
      · rw [if_neg hc] at h; exact absurd h (by simp)
  · intro l1 h
    simp only [search_bar_previous_annotations] at h ⊢
    cases hra : resolveAnnotators cfg sel with
    | error e => rw [hra] at h; exact absurd h (by simp)
    | ok annotators =>
      rw [hra] at h
      simp only [] at h ⊢
      cases hfl : flattenAll feat fld (annotators.map pyLower) aj with
      | error e => rw [hfl] at h; exact absurd h (by simp)
      | ok filtered =>
        rw [hfl] at h
        simp only [] at h ⊢
        exact matchLoop_superset aj query _ filtered [] [] []
          (List.Sublist.refl []) (flattenAll_lookupOk feat fld _ aj filtered hnd hfl) l1 h

/- Concrete store and annotation fixtures used by witnesses and
counterexamples. -/

def exG1 : ExampleG := ⟨"a".toList, "b".toList, "c".toList, "d".toList⟩

def exG2 : ExampleG := ⟨"e".toList, "f".toList, "g".toList, "h".toList⟩

def gulfNF : GulfStore :=
  [("baseword".toList, [("NOUN:FS".toList, [exG1]), ("NOUN:MS".toList, [exG2])])]

def exC1 : ExampleC := ⟨"r".toList, "c".toList, "x".toList⟩

def segVERB : Segment :=
  ⟨"t".toList, "v".toList, "VERB".toList, "l".toList, "f".toList⟩

def recPhrase : AnnRecord :=
  ⟨"phrase".toList, .str "r".toList, .str "c".toList, [[segVERB, segVERB]]⟩

def ajW : List (LC × List AnnRecord) := [("annotations_wiam".toList, [recPhrase])]

def cfgW : Config := ⟨["Wiam".toList], "Wiam".toList⟩

def gulfNX : GulfStore := [("baseword".toList, [("NOUN:FS".toList, [exG1])])]

/-- Claim C5 (evaluation at the failing input): for the composite Gulf POS
query "NOUN:X" against the group key "NOUN:FS", the Exact-mode call returns
an empty mapping, but the Approximate-mode call raises an uncaught
TypeError: the key matches through the pos-substring disjunct, and
`response[k] = v` runs with `k` rebound (line 69) to the unhashable split
list.  The Approximate result therefore fails to be a superset of the Exact
result, against the claim and the source's evident intent. -/
theorem c5_crash_eval :
    search_bar_examples "NOUN:X".toList gulfNX [] []
      ⟨"Baseword".toList, exactS, "Gulf Tags".toList⟩ = .ok (.gulfTags []) ∧
    search_bar_examples "NOUN:X".toList gulfNX [] []
      ⟨"Baseword".toList, approxS, "Gulf Tags".toList⟩ = .error .typeError :=
  ⟨by decide, by decide⟩

/-- Claim C1 (evaluation at the failing input): a record whose two
sub-segments both match the query contributes its original phrase twice to
one call's result — the `already_added` list of line 172 is consulted (lines
188, 197, 201) but never appended to, so per-call de-duplication never
happens. -/
theorem c1_duplicate_entries_eval :
    search_bar_previous_annotations cfgW "VERB".toList ajW
      ⟨"Segments".toList, "POS".toList, exactS, "Wiam".toList⟩ =
    .ok ["phrase".toList, "phrase".toList] := by decide

/-- Counterexample for C2: with Gulf group keys NOUN:FS and NOUN:MS, the
composite query "NOUN:F" in Approximate mode does not return a result
mapping at all: the call raises an uncaught TypeError.  Both keys satisfy
the Approximate composite rule of line 81 (the query POS part "NOUN" is a
substring of both key POS parts), and the first `response[k] = v` runs with
`k` rebound to the unhashable split list (line 69). -/
theorem c2_counterexample :
    search_bar_examples "NOUN:F".toList gulfNF [] []
      ⟨"Baseword".toList, approxS, "Gulf Tags".toList⟩ = .error .typeError ∧
    posKeyMatch approxS "NOUN:F".toList (compositeParse "NOUN:F".toList)
      "NOUN:FS".toList = true ∧
    posKeyMatch approxS "NOUN:F".toList (compositeParse "NOUN:F".toList)
      "NOUN:MS".toList = true :=
  ⟨by decide, by decide, by decide⟩

/-- Claim C2 as amended: for a Gulf store whose segment-type group has
exactly the keys NOUN:FS and NOUN:MS, the composite query "NOUN:F" in
Approximate mode matches BOTH keys (the Approximate composite rule is
pos-substring OR feature intersection, and "NOUN" is a substring of "NOUN"),
and the call returns no mapping: it raises an uncaught TypeError at the
first matching key, whatever the groups' example lists. -/
theorem c2_amended_crash (v1 v2 : List ExampleG) (m : MsaTagMap)
    (c : List ExampleC) :
    search_bar_examples "NOUN:F".toList
      [("baseword".toList, [("NOUN:FS".toList, v1), ("NOUN:MS".toList, v2)])] m c
      ⟨"Baseword".toList, approxS, "Gulf Tags".toList⟩ = .error .typeError := by
  rfl

def exArabicBase : ExampleG := ⟨"ءa".toList, "zz".toList, "q".toList, "c".toList⟩

def gulfArabic : GulfStore := [("baseword".toList, [("NOUN".toList, [exArabicBase])])]

/-- Counterexample for C3: the query "ءa" (Arabic first letter, then a
Latin lowercase letter) classifies both as Arabic-script and as gloss; the
store's only example has baseword equal to the query, yet the Gulf search
returns no group, because the code looks up the gloss field (line 90), while
a baseword-field search would have kept the group. -/
theorem c3_counterexample :
    isArabicQ "ءa".toList = true ∧ isGlossQ "ءa".toList = true ∧
    isPosQ "ءa".toList = false ∧
    search_bar_examples "ءa".toList gulfArabic [] []
      ⟨"Baseword".toList, exactS, "Gulf Tags".toList⟩ = .ok (.gulfTags []) ∧
    fieldSearch (getGulfField GulfKey.baseword) exactS "ءa".toList
      [("NOUN".toList, [exArabicBase])] = [("NOUN".toList, [exArabicBase])] :=
  ⟨by decide, by decide, by decide, by decide, by decide⟩

/-- Claim C3 as amended: when a query classifies both as Arabic-script and
as gloss, the gloss classification wins the field selection: a Gulf Tags
search looks up the `gloss` field (line 90 overrides the baseword/clitic
choice made from the segment type). -/
theorem c3_amended_gloss_wins
    (q st mt : LC) (g : GulfStore) (m : MsaTagMap) (c : List ExampleC)
    (te : GulfTagMap)
    (hpos : isPosQ q = false) (har : isArabicQ q = true) (hgl : isGlossQ q = true)
    (hq : q ≠ []) (hg : pyDictGet g (pyLower st) = some te) :
    search_bar_examples q g m c ⟨st, mt, "Gulf Tags".toList⟩ =
      .ok (.gulfTags (fieldSearch (getGulfField GulfKey.gloss) mt q te)) := by
  have h1 : pyIn "Tags".toList "Gulf Tags".toList = true := by decide
  have h2 : pyIn "Gulf".toList "Gulf Tags".toList = true := by decide
  simp [search_bar_examples, tagsDispatch, h1, h2, hg, hpos, har, hgl, hq,
    gulfExampleKey]
  split
  · split
    · rfl
    · rename_i hX
      exact absurd (by decide) hX
  · rename_i hX
    exact absurd (by decide) hX

/-- Witness for C3's amended claim at the concrete query "ءa". -/
theorem c3_amended_witness :
    isPosQ "ءa".toList = false ∧ isArabicQ "ءa".toList = true ∧
    isGlossQ "ءa".toList = true ∧ ("ءa".toList ≠ ([] : LC)) ∧
    pyDictGet gulfArabic (pyLower "Baseword".toList) =
      some [("NOUN".toList, [exArabicBase])] ∧
    search_bar_examples "ءa".toList gulfArabic [] []
      ⟨"Baseword".toList, exactS, "Gulf Tags".toList⟩ =
      .ok (.gulfTags (fieldSearch (getGulfField GulfKey.gloss) exactS "ءa".toList
        [("NOUN".toList, [exArabicBase])])) :=
  ⟨by decide, by decide, by decide, by decide, by decide,
    c3_amended_gloss_wins "ءa".toList "Baseword".toList exactS gulfArabic [] []
      [("NOUN".toList, [exArabicBase])] (by decide) (by decide) (by decide)
      (by decide) (by decide)⟩

def recHello : AnnRecord := ⟨"p".toList, .str "hello".toList, .str "c".toList, []⟩

def ajX : List (LC × List AnnRecord) := [("x_wiam".toList, [recHello])]

/-- Counterexample for C4: two calls of search_bar_previous_annotations with
identical declared arguments but different config.json contents return
different results — the function is not a pure function of its declared
inputs alone, since it opens and reads config.json on every call. -/
theorem c4_counterexample :
    search_bar_previous_annotations ⟨["Wiam".toList], "W".toList⟩ "hell".toList ajX
      ⟨"Raw".toList, "Text".toList, approxS, "Wiam".toList⟩ ≠
    search_bar_previous_annotations ⟨[], "W".toList⟩ "hell".toList ajX
      ⟨"Raw".toList, "Text".toList, approxS, "Wiam".toList⟩ := by decide

/-- Claim C4 as amended: search_bar_examples is a pure function of its
declared inputs (threading the stores through a call returns them
unchanged); search_bar_previous_annotations is a pure function of its
declared inputs plus the config.json contents it reads on each call — the
call leaves the config state unchanged, and a repeated call in the resulting
state returns the identical result (no state retained between calls). -/
theorem c4_amended_purity (query : LC) (qf : ExamplesQueryFilter) (s : Stores)
    (query2 : LC) (aj : List (LC × List AnnRecord))
    (qf2 : AnnotationsQueryFilter) (fs : Config) :
    (search_bar_examples_st query qf s).2 = s ∧
    (search_bar_examples_st query qf s).1 =
      search_bar_examples query s.1 s.2.1 s.2.2 qf ∧
    (search_bar_previous_annotations_run query2 aj qf2 fs).2 = fs ∧
    (search_bar_previous_annotations_run query2 aj qf2 fs).1 =
      search_bar_previous_annotations fs query2 aj qf2 ∧
    (search_bar_previous_annotations_run query2 aj qf2
        ((search_bar_previous_annotations_run query2 aj qf2 fs).2)).1 =
      (search_bar_previous_annotations_run query2 aj qf2 fs).1 :=
  ⟨rfl, rfl, rfl, rfl, rfl⟩

/-- Claim C10: search_bar_examples never mutates its inputs: threading the
three stores through a call returns them unchanged, and the response is the
pure value computed from the read snapshots (the source only reads the
stores and builds a fresh response container). -/
theorem c10_no_store_mutation (query : LC) (qf : ExamplesQueryFilter) (s : Stores) :
    (search_bar_examples_st query qf s).2 = s ∧
    (search_bar_examples_st query qf s).1 =
      search_bar_examples query s.1 s.2.1 s.2.2 qf :=
  ⟨rfl, rfl⟩

theorem tagsDispatch_msa_st_independent (q mt st1 st2 : LC) (m : MsaTagMap) :
    tagsDispatch q mt st1 false (some (.inr m)) =
    tagsDispatch q mt st2 false (some (.inr m)) := by
  simp only [tagsDispatch]

/-- Claim C9: when the filter's resource is "MSA Tags" or "CODA Examples",
the example-search result is independent of the filter's segment-type
position: two calls whose filters differ only in position 0 are equal. -/
theorem c9_segment_type_irrelevant (q st1 st2 mt res : LC) (g : GulfStore)
    (m : MsaTagMap) (c : List ExampleC)
    (hres : res = "MSA Tags".toList ∨ res = "CODA Examples".toList) :
    search_bar_examples q g m c ⟨st1, mt, res⟩ =
    search_bar_examples q g m c ⟨st2, mt, res⟩ := by
  rcases hres with hres | hres
  · subst hres
    simp only [search_bar_examples]
    rw [if_pos (by decide), if_neg (by decide), if_pos (by decide)]
    exact tagsDispatch_msa_st_independent q mt st1 st2 m
  · subst hres
    rfl

/-- Witness for C9 at a concrete query, stores and pair of segment types. -/
theorem c9_witness :
    ("MSA Tags".toList = "MSA Tags".toList ∨
      "MSA Tags".toList = "CODA Examples".toList) ∧
    search_bar_examples "VERB".toList gulfNF [] [exC1]
      ⟨"Baseword".toList, approxS, "MSA Tags".toList⟩ =
    search_bar_examples "VERB".toList gulfNF [] [exC1]
      ⟨"Enclitic".toList, approxS, "MSA Tags".toList⟩ :=
  ⟨Or.inl rfl, c9_segment_type_irrelevant "VERB".toList "Baseword".toList
    "Enclitic".toList approxS "MSA Tags".toList gulfNF [] [exC1] (Or.inl rfl)⟩

theorem isPosQ_ne_nil {q : LC} (h : isPosQ q = true) : q ≠ [] := by
  intro hq
  rw [hq] at h
  exact absurd h (by decide)

theorem compositeParse_eq_none {q : LC} (h : (splitOnChar ':' q).length ≠ 2) :
    compositeParse q = none := by
  unfold compositeParse
  cases hs : splitOnChar ':' q with
  | nil => rfl
  | cons a t =>
    cases t with
    | nil => rfl
    | cons b t2 =>
      cases t2 with
      | nil => exact absurd (by rw [hs]; rfl) h
      | cons c2 t3 => rfl

theorem posKeyMatch_exact_none (q k : LC) :
    posKeyMatch exactS q none k = decide (q = k) := by
  simp only [posKeyMatch, posPlainMatch, if_neg approxS_ne_exactS, if_pos rfl]
  exact if_pos trivial

theorem filter_key_len_le_one {β : Type} (q : LC) :
    ∀ (l : List (LC × β)), (l.map Prod.fst).Nodup →
      (l.filter (fun kv => decide (q = kv.1))).length ≤ 1 := by
  intro l
  induction l with
  | nil => intro _; simp
  | cons kv rest ih =>
    intro hnd
    obtain ⟨k0, v0⟩ := kv
    have hnd2 : k0 ∉ rest.map Prod.fst ∧ (rest.map Prod.fst).Nodup := by
      rw [List.map_cons] at hnd
      exact List.nodup_cons.mp hnd
    by_cases hq : q = k0
    · rw [List.filter_cons_of_pos (by simp [hq])]
      have hrest : rest.filter (fun kv => decide (q = kv.1)) = [] := by
        apply List.filter_eq_nil_iff.mpr
        intro kv hm hcon
        have : k0 ∈ rest.map Prod.fst := by
          have hk : kv.1 = k0 := by
            have := of_decide_eq_true hcon
            rw [← this, hq]
          exact hk ▸ List.mem_map_of_mem Prod.fst hm
        exact hnd2.1 this
      rw [hrest]
      simp
    · rw [List.filter_cons_of_neg (by simp [hq])]
      exact ih hnd2.2

/-- Claim C6: for a non-composite POS query (entirely upper-case after
stripping punctuation; its ':'-split does not have exactly two parts) in
Exact mode, the result against either tag resource is exactly the groups
whose key equals the query, and under the unique-POS-keys store invariant it
has at most one group. -/
theorem c6_exact_noncomposite_pos
    (q st : LC) (g : GulfStore) (m : MsaTagMap) (c : List ExampleC)
    (te : GulfTagMap)
    (hpos : isPosQ q = true)
    (hnc : (splitOnChar ':' q).length ≠ 2)
    (hg : pyDictGet g (pyLower st) = some te)
    (hndg : (te.map Prod.fst).Nodup)
    (hndm : (m.map Prod.fst).Nodup) :
    (∃ r, search_bar_examples q g m c ⟨st, exactS, "Gulf Tags".toList⟩ =
        .ok (.gulfTags r) ∧ (∀ kv, kv ∈ r ↔ kv ∈ te ∧ kv.1 = q) ∧ r.length ≤ 1)
    ∧
    (∃ r, search_bar_examples q g m c ⟨st, exactS, "MSA Tags".toList⟩ =
        .ok (.msaTags r) ∧ (∀ kv, kv ∈ r ↔ kv ∈ m ∧ kv.1 = q) ∧ r.length ≤ 1) := by
  have hq : q ≠ [] := isPosQ_ne_nil hpos
  have hmemiff : ∀ (β : Type) (l : List (LC × β)) (kv : LC × β),
      kv ∈ l.filter (fun kv => decide (q = kv.1)) ↔ kv ∈ l ∧ kv.1 = q := by
    intro β l kv
    rw [List.mem_filter]
    constructor
    · intro ⟨h1, h2⟩
      exact ⟨h1, (of_decide_eq_true h2).symm⟩
    · intro ⟨h1, h2⟩
      exact ⟨h1, decide_eq_true h2.symm⟩
  constructor
  · refine ⟨te.filter (fun kv => decide (q = kv.1)), ?_, hmemiff _ te,
      filter_key_len_le_one q te hndg⟩
    have h1 : pyIn "Tags".toList "Gulf Tags".toList = true := by decide
    have h2 : pyIn "Gulf".toList "Gulf Tags".toList = true := by decide
    simp only [search_bar_examples]
    rw [if_pos h1, if_pos h2, hg]
    simp only []
    simp only [tagsDispatch]
    rw [if_neg hq, if_pos hpos]
    simp only [if_pos rfl, compositeParse_eq_none hnc]
    simp only [posSearch, ite_self, posKeyMatch_exact_none]
  · refine ⟨m.filter (fun kv => decide (q = kv.1)), ?_, hmemiff _ m,
      filter_key_len_le_one q m hndm⟩
    have h1 : pyIn "Tags".toList "MSA Tags".toList = true := by decide
    have h2 : ¬(pyIn "Gulf".toList "MSA Tags".toList = true) := by decide
    have h3 : pyIn "MSA".toList "MSA Tags".toList = true := by decide
    simp only [search_bar_examples]
    rw [if_pos h1, if_neg h2, if_pos h3]
    simp only [tagsDispatch]
    rw [if_neg hq, if_pos hpos]
    simp only [posSearch, posKeyMatch_exact_none]

/-- Witness for C6 at the concrete query "NOUN" against the fixture store. -/
theorem c6_witness :
    isPosQ "NOUN".toList = true ∧
    (splitOnChar ':' "NOUN".toList).length ≠ 2 ∧
    pyDictGet gulfNF (pyLower "Baseword".toList) =
      some [("NOUN:FS".toList, [exG1]), ("NOUN:MS".toList, [exG2])] ∧
    (([("NOUN:FS".toList, [exG1]), ("NOUN:MS".toList, [exG2])].map
        (Prod.fst (β := List ExampleG))).Nodup) ∧
    ((∃ r, search_bar_examples "NOUN".toList gulfNF [] []
        ⟨"Baseword".toList, exactS, "Gulf Tags".toList⟩ = .ok (.gulfTags r) ∧
        (∀ kv, kv ∈ r ↔ kv ∈ [("NOUN:FS".toList, [exG1]), ("NOUN:MS".toList, [exG2])] ∧
          kv.1 = "NOUN".toList) ∧ r.length ≤ 1)
    ∧
    (∃ r, search_bar_examples "NOUN".toList gulfNF [] []
        ⟨"Baseword".toList, exactS, "MSA Tags".toList⟩ = .ok (.msaTags r) ∧
        (∀ kv, kv ∈ r ↔ kv ∈ ([] : MsaTagMap) ∧ kv.1 = "NOUN".toList) ∧
        r.length ≤ 1)) :=
  ⟨by decide, by decide, by decide, by decide,
    c6_exact_noncomposite_pos "NOUN".toList "Baseword".toList gulfNF [] []
      [("NOUN:FS".toList, [exG1]), ("NOUN:MS".toList, [exG2])]
      (by decide) (by decide) (by decide) (by decide) (by decide)⟩

/-- Counterexample for C7: an empty query against CODA Examples in
Approximate mode does not fail: it silently matches every example (the empty
string is a substring of every field value), so the example search does not
fail fast on an empty query for every resource and mode. -/
theorem c7_counterexample :
    search_bar_examples [] [] [] [exC1]
      ⟨"Baseword".toList, approxS, "CODA Examples".toList⟩ = .ok (.coda [exC1]) := by
  decide

/-- Claim C7 as amended: an empty query raises an uncaught IndexError (from
`query[0]`) for the tag resources — always for MSA Tags, and for Gulf Tags
whenever the segment-type lookup succeeds — but for CODA Examples it is
handled without error, and in Approximate mode it matches every example. -/
theorem c7_amended_empty_query (g : GulfStore) (m : MsaTagMap)
    (c : List ExampleC) (st mt : LC) (te : GulfTagMap) :
    search_bar_examples [] g m c ⟨st, mt, "MSA Tags".toList⟩ = .error .indexError ∧
    (pyDictGet g (pyLower st) = some te →
      search_bar_examples [] g m c ⟨st, mt, "Gulf Tags".toList⟩ = .error .indexError) ∧
    search_bar_examples [] g m c ⟨st, approxS, "CODA Examples".toList⟩ =
      .ok (.coda c) := by
  refine ⟨?_, ?_, ?_⟩
  · have h1 : pyIn "Tags".toList "MSA Tags".toList = true := by decide
    have h2 : ¬(pyIn "Gulf".toList "MSA Tags".toList = true) := by decide
    have h3 : pyIn "MSA".toList "MSA Tags".toList = true := by decide
    simp only [search_bar_examples]
    rw [if_pos h1, if_neg h2, if_pos h3]
    simp [tagsDispatch]
  · intro hg
    have h1 : pyIn "Tags".toList "Gulf Tags".toList = true := by decide
    have h2 : pyIn "Gulf".toList "Gulf Tags".toList = true := by decide
    simp only [search_bar_examples]
    rw [if_pos h1, if_pos h2, hg]
    simp [tagsDispatch]
  · have h1 : ¬(pyIn "Tags".toList "CODA Examples".toList = true) := by decide
    simp only [search_bar_examples]
    rw [if_neg h1]
    rw [if_pos trivial]
    have hfull : c.filter (codaMatch approxS []) = c := by
      apply List.filter_eq_self.mpr
      intro e _
      simp [codaMatch, pyIn_nil]
    rw [hfull]

/-- Witness for C7's amended claim at concrete stores. -/
theorem c7_witness :
    pyDictGet gulfNF (pyLower "Baseword".toList) =
      some [("NOUN:FS".toList, [exG1]), ("NOUN:MS".toList, [exG2])] ∧
    search_bar_examples [] gulfNF [] [exC1]
      ⟨"Baseword".toList, exactS, "MSA Tags".toList⟩ = .error .indexError ∧
    search_bar_examples [] gulfNF [] [exC1]
      ⟨"Baseword".toList, exactS, "Gulf Tags".toList⟩ = .error .indexError ∧
    search_bar_examples [] gulfNF [] [exC1]
      ⟨"Baseword".toList, approxS, "CODA Examples".toList⟩ = .ok (.coda [exC1]) :=
  ⟨by decide,
   (c7_amended_empty_query gulfNF [] [exC1] "Baseword".toList exactS
     [("NOUN:FS".toList, [exG1]), ("NOUN:MS".toList, [exG2])]).1,
   (c7_amended_empty_query gulfNF [] [exC1] "Baseword".toList exactS
     [("NOUN:FS".toList, [exG1]), ("NOUN:MS".toList, [exG2])]).2.1 (by decide),
   (c7_amended_empty_query gulfNF [] [exC1] "Baseword".toList exactS
     [("NOUN:FS".toList, [exG1]), ("NOUN:MS".toList, [exG2])]).2.2⟩

theorem removeFirstRec_sublist (l : List AnnRecord) (d : AnnRecord) :
    (removeFirstRec l d).Sublist l := by
  induction l with
  | nil => simp [removeFirstRec]
  | cons x xs ih =>
    simp only [removeFirstRec]
    by_cases hx : x = d
    · rw [if_pos hx]
      exact List.sublist_cons_self x xs
    · rw [if_neg hx]
      exact ih.cons₂ x

theorem removeFirstRec_original_not_mem
    (d : AnnRecord) :
    ∀ (l : List AnnRecord), (l.map AnnRecord.original).Nodup → d ∈ l →
      d.original ∉ (removeFirstRec l d).map AnnRecord.original := by
  intro l
  induction l with
  | nil => intro _ hm; exact absurd hm (by simp)
  | cons x xs ih =>
    intro hnd hm
    have hnd2 : x.original ∉ xs.map AnnRecord.original ∧
        (xs.map AnnRecord.original).Nodup := by
      rw [List.map_cons] at hnd
      exact List.nodup_cons.mp hnd
    simp only [removeFirstRec]
    by_cases hx : x = d
    · rw [if_pos hx, ← hx]
      exact hnd2.1
    · rw [if_neg hx]
      have hdm : d ∈ xs := by
        rcases List.mem_cons.mp hm with hh | hh
        · exact absurd hh.symm hx
        · exact hh
      have hne : x.original ≠ d.original := by
        intro hcon
        exact hnd2.1 (hcon ▸ List.mem_map_of_mem AnnRecord.original hdm)
      rw [List.map_cons]
      intro hcon
      rcases List.mem_cons.mp hcon with hh | hh
      · exact hne hh.symm
      · exact ih hnd2.2 hdm hh

/-- Claim C8: the annotation-store write of src/app.py (remove the first
record whose `original` matches the incoming record's, then append the
incoming record) preserves the invariant that each annotator's list holds at
most one record per distinct `original` value. -/
theorem c8_write_preserves_unique_original
    (dataaz : List AnnRecord) (newData : AnnRecord)
    (hnd : (dataaz.map AnnRecord.original).Nodup) :
    ((data_get_update dataaz newData).map AnnRecord.original).Nodup := by
  unfold data_get_update
  cases hf : dataaz.find? (fun d => decide (d.original = newData.original)) with
  | none =>
    rw [List.map_append]
    apply List.Nodup.append hnd (by simp)
    intro a ha hb
    have hb2 : a = newData.original := by simpa using hb
    obtain ⟨d, hdm, hdo⟩ := List.mem_map.mp ha
    have hne := List.find?_eq_none.mp hf d hdm
    exact hne (decide_eq_true (hdo.trans hb2))
  | some d =>
    have hmem : d ∈ dataaz := List.mem_of_find?_eq_some hf
    have horig : d.original = newData.original := by
      have hp := List.find?_some hf
      simpa using hp
    rw [List.map_append]
    apply List.Nodup.append
    · exact ((removeFirstRec_sublist dataaz d).map AnnRecord.original).nodup hnd
    · simp
    · intro a ha hb
      have hb2 : a = newData.original := by simpa using hb
      have hnotin := removeFirstRec_original_not_mem d dataaz hnd hmem
      rw [hb2] at ha
      rw [horig] at hnotin
      exact hnotin ha

/-- Witness for C8: the invariant checked before and after a concrete write. -/
theorem c8_witness :
    (([recPhrase].map AnnRecord.original).Nodup) ∧
    ((data_get_update [recPhrase] recHello).map AnnRecord.original).Nodup :=
  ⟨by decide, c8_write_preserves_unique_original [recPhrase] recHello (by decide)⟩
